import Mathlib

/-!
Verification development for the live-voice audio subsystem of the
Mz-AI-Studio front-end: the audio codec utilities, the capture pipeline,
the playback scheduler and the live-session state handling found in the
LiveChat component.
-/

namespace LiveAudio

/-! ## Audio codec utilities: transport encoding

The component imports `encode` / `decode` from `utils/audioUtils`.
Modelled from the spec: `encode(bytes) -> text` is a "deterministic,
reversible mapping from a binary buffer to a text-safe string" (base64:
three bytes per four six-bit symbols, `=`-padded) and `decode` is its
inverse, failing on malformed input. -/

/-- One symbol of the transport encoding: a six-bit value or the padding mark. -/
inductive B64Sym where
  | six (v : Nat)
  | pad
  deriving DecidableEq

/-- Modelled from the spec: the byte-to-symbol grouping of `encode`.
Each group of three bytes becomes four six-bit symbols; a trailing group of
one or two bytes is padded with `pad` symbols. -/
def encodeSyms : List Nat → List B64Sym
  | [] => []
  | [b0] => [.six (b0 / 4), .six (b0 % 4 * 16), .pad, .pad]
  | [b0, b1] => [.six (b0 / 4), .six (b0 % 4 * 16 + b1 / 16), .six (b1 % 16 * 4), .pad]
  | b0 :: b1 :: b2 :: rest =>
      .six (b0 / 4) :: .six (b0 % 4 * 16 + b1 / 16) :: .six (b1 % 16 * 4 + b2 / 64) ::
        .six (b2 % 64) :: encodeSyms rest

/-- Modelled from the spec: the symbol-to-byte regrouping of `decode`.
Fails (`none`) on impossible padding or group shapes. -/
def decodeSyms : List B64Sym → Option (List Nat)
  | [] => some []
  | [.six a, .six b, .pad, .pad] =>
      if b % 16 = 0 then some [a * 4 + b / 16] else none
  | [.six a, .six b, .six c, .pad] =>
      if c % 4 = 0 then some [a * 4 + b / 16, b % 16 * 16 + c / 4] else none
  | .six a :: .six b :: .six c :: .six d :: rest =>
      (decodeSyms rest).map fun r =>
        (a * 4 + b / 16) :: (b % 16 * 16 + c / 4) :: (c % 4 * 64 + d) :: r
  | _ => none

/-- The standard base64 alphabet. -/
def b64Chars : List Char :=
  ['A', 'B', 'C', 'D', 'E', 'F', 'G', 'H', 'I', 'J', 'K', 'L', 'M',
   'N', 'O', 'P', 'Q', 'R', 'S', 'T', 'U', 'V', 'W', 'X', 'Y', 'Z',
   'a', 'b', 'c', 'd', 'e', 'f', 'g', 'h', 'i', 'j', 'k', 'l', 'm',
   'n', 'o', 'p', 'q', 'r', 's', 't', 'u', 'v', 'w', 'x', 'y', 'z',
   '0', '1', '2', '3', '4', '5', '6', '7', '8', '9', '+', '/']

/-- Render one symbol as its transport character. -/
def symToChar : B64Sym → Char
  | .six v => b64Chars.getD v 'A'
  | .pad => '='

/-- Parse one transport character back to a symbol; `none` for characters
outside the alphabet. -/
def charToSym (c : Char) : Option B64Sym :=
  if c = '=' then some B64Sym.pad
  else (b64Chars.findIdx? (fun a => a = c)).map B64Sym.six

/-- Parse a character list symbol by symbol; fails if any character is
outside the alphabet. -/
def charsToSyms : List Char → Option (List B64Sym)
  | [] => some []
  | c :: rest =>
      match charToSym c, charsToSyms rest with
      | some s, some r => some (s :: r)
      | _, _ => none

/-- Modelled from the spec: `encode(bytes) -> text`. -/
def encode (bytes : List Nat) : List Char :=
  (encodeSyms bytes).map symToChar

/-- Modelled from the spec: `decode(text) -> bytes`, the inverse of `encode`,
failing on invalid alphabet characters or impossible padding. -/
def decode (text : List Char) : Option (List Nat) :=
  (charsToSyms text).bind decodeSyms

/-- A symbol is well formed when its six-bit value is below 64. -/
def symValid : B64Sym → Prop
  | .six v => v < 64
  | .pad => True

theorem encodeSyms_valid (l : List Nat) (h : ∀ b ∈ l, b < 256) :
    ∀ s ∈ encodeSyms l, symValid s := by
  induction l using encodeSyms.induct with
  | case1 =>
    intro s hs
    simp [encodeSyms] at hs
  | case2 b0 =>
    have hb0 : b0 < 256 := h b0 (by simp)
    intro s hs
    simp only [encodeSyms, List.mem_cons, List.not_mem_nil, or_false] at hs
    rcases hs with h1 | h1 | h1 | h1 <;> subst h1 <;> simp [symValid] <;> omega
  | case3 b0 b1 =>
    have hb0 : b0 < 256 := h b0 (by simp)
    have hb1 : b1 < 256 := h b1 (by simp)
    intro s hs
    simp only [encodeSyms, List.mem_cons, List.not_mem_nil, or_false] at hs
    rcases hs with h1 | h1 | h1 | h1 <;> subst h1 <;> simp [symValid] <;> omega
  | case4 b0 b1 b2 rest ih =>
    have hb0 : b0 < 256 := h b0 (by simp)
    have hb1 : b1 < 256 := h b1 (by simp)
    have hb2 : b2 < 256 := h b2 (by simp)
    have hrest : ∀ b ∈ rest, b < 256 := fun b hb => h b (by simp [hb])
    intro s hs
    simp only [encodeSyms, List.mem_cons] at hs
    rcases hs with h1 | h1 | h1 | h1 | h1
    · subst h1; simp [symValid]; omega
    · subst h1; simp [symValid]; omega
    · subst h1; simp [symValid]; omega
    · subst h1; simp [symValid]; omega
    · exact ih hrest s h1

theorem charToSym_symToChar_six (v : Nat) (hv : v < 64) :
    charToSym (symToChar (.six v)) = some (.six v) := by
  have h : ∀ i : Fin 64, charToSym (symToChar (.six i.val)) = some (.six i.val) := by decide
  exact h ⟨v, hv⟩

theorem charsToSyms_map_symToChar (l : List B64Sym) (h : ∀ s ∈ l, symValid s) :
    charsToSyms (l.map symToChar) = some l := by
  induction l with
  | nil => rfl
  | cons s rest ih =>
    have hs : symValid s := h s (by simp)
    have h1 : charToSym (symToChar s) = some s := by
      cases s with
      | six v => exact charToSym_symToChar_six v hs
      | pad => decide
    have h2 : charsToSyms (rest.map symToChar) = some rest :=
      ih (fun s hs => h s (by simp [hs]))
    simp [charsToSyms, h1, h2]

theorem decodeSyms_encodeSyms (l : List Nat) (h : ∀ b ∈ l, b < 256) :
    decodeSyms (encodeSyms l) = some l := by
  induction l using encodeSyms.induct with
  | case1 => rfl
  | case2 b0 =>
    have hc : b0 % 4 * 16 % 16 = 0 := Nat.mul_mod_left _ _
    simp only [encodeSyms, decodeSyms, hc, if_pos rfl]
    have e0 : b0 / 4 * 4 + b0 % 4 * 16 / 16 = b0 := by omega
    rw [e0]
    simp
  | case3 b0 b1 =>
    have hb1 : b1 < 256 := h b1 (by simp)
    have hc : b1 % 16 * 4 % 4 = 0 := Nat.mul_mod_left _ _
    simp only [encodeSyms, decodeSyms, hc, if_pos rfl]
    have e0 : b0 / 4 * 4 + (b0 % 4 * 16 + b1 / 16) / 16 = b0 := by omega
    have e1 : (b0 % 4 * 16 + b1 / 16) % 16 * 16 + b1 % 16 * 4 / 4 = b1 := by omega
    rw [e0, e1]
    simp
  | case4 b0 b1 b2 rest ih =>
    have hb1 : b1 < 256 := h b1 (by simp)
    have hb2 : b2 < 256 := h b2 (by simp)
    have hrest : ∀ b ∈ rest, b < 256 := fun b hb => h b (by simp [hb])
    simp only [encodeSyms, decodeSyms, ih hrest, Option.map_some]
    have e0 : b0 / 4 * 4 + (b0 % 4 * 16 + b1 / 16) / 16 = b0 := by omega
    have e1 : (b0 % 4 * 16 + b1 / 16) % 16 * 16 + (b1 % 16 * 4 + b2 / 64) / 4 = b1 := by
      omega
    have e2 : (b1 % 16 * 4 + b2 / 64) % 4 * 64 + b2 % 64 = b2 := by omega
    rw [e0, e1, e2]
    simp

/-- C1: for every byte buffer `b` (entries below 256), including the empty
buffer and buffers of every length mod 3, `decode (encode b)` returns
exactly `b`. -/
theorem decode_encode_roundTrip (b : List Nat) (h : ∀ x ∈ b, x < 256) :
    decode (encode b) = some b := by
  unfold decode encode
  rw [charsToSyms_map_symToChar _ (encodeSyms_valid b h)]
  simpa using decodeSyms_encodeSyms b h

/-- Concrete round-trip instance: a four-byte buffer (length mod 3 = 1). -/
theorem decode_encode_roundTrip_witness :
    (∀ x ∈ [0, 1, 127, 255], x < 256) ∧
      decode (encode [0, 1, 127, 255]) = some [0, 1, 127, 255] :=
  ⟨by decide, decode_encode_roundTrip [0, 1, 127, 255] (by decide)⟩

/-! ## Audio codec utilities: PCM decoding

`decodeAudioData` is imported from `utils/audioUtils`; its call sites pass
the decoded bytes, the output context, sample rate 24000 and one channel.
Modelled from the spec: the byte buffer is read as little-endian signed
16-bit PCM, each sample normalized to [-1, 1] by dividing by 32768; a
trailing partial sample is truncated; zero-length input yields a valid
zero-length buffer.  Samples are rationals in this embedding. -/

/-- The signed 16-bit value stored little-endian as bytes `lo`, `hi`. -/
def toInt16LE (lo hi : Nat) : Int :=
  let v := lo + 256 * hi
  if v < 32768 then (v : Int) else (v : Int) - 65536

/-- Byte stream to normalized samples; a trailing lone byte is dropped. -/
def pcmToSamples : List Nat → List ℚ
  | [] => []
  | [_] => []
  | lo :: hi :: rest => ((toInt16LE lo hi : ℚ) / 32768) :: pcmToSamples rest

/-- The decoded audio-sample buffer: sample rate, channel count and the
channel data (the call sites are mono, so one sample list). -/
structure AudioSegment where
  sampleRate : Nat
  numChannels : Nat
  samples : List ℚ
  deriving DecidableEq

/-- Modelled from the spec: `decodeAudioData(bytes, sampleRate, channelCount)`. -/
def decodeAudioData (bytes : List Nat) (sampleRate numChannels : Nat) : AudioSegment :=
  { sampleRate := sampleRate, numChannels := numChannels, samples := pcmToSamples bytes }

theorem pcmToSamples_length (bytes : List Nat) :
    (pcmToSamples bytes).length = bytes.length / 2 := by
  induction bytes using pcmToSamples.induct with
  | case1 => rfl
  | case2 b => simp [pcmToSamples]
  | case3 lo hi rest ih => simp [pcmToSamples, ih]; omega

/-- C9: `decodeAudioData` reads little-endian signed 16-bit samples and
divides by 32768: the bytes `[0x00,0x00, 0xFF,0x7F, 0x00,0x80]` yield the
three samples `0`, `32767/32768`, `-1`; a byte length not divisible by 2
loses only the trailing partial sample; zero-length input yields a valid
zero-length buffer. -/
theorem decodeAudioData_pcm_correct :
    (decodeAudioData [0x00, 0x00, 0xFF, 0x7F, 0x00, 0x80] 24000 1).samples
        = [0, 32767 / 32768, -1]
    ∧ (∀ bytes sr nc,
        ((decodeAudioData bytes sr nc).samples).length = bytes.length / 2)
    ∧ decodeAudioData [] 24000 1
        = { sampleRate := 24000, numChannels := 1, samples := [] }
    ∧ (∀ lo hi rest, pcmToSamples (lo :: hi :: rest)
        = ((toInt16LE lo hi : ℚ) / 32768) :: pcmToSamples rest) := by
  refine ⟨?_, ?_, rfl, fun lo hi rest => rfl⟩
  · show pcmToSamples [0x00, 0x00, 0xFF, 0x7F, 0x00, 0x80] = [0, 32767 / 32768, -1]
    norm_num [pcmToSamples, toInt16LE]
  · intro bytes sr nc
    exact pcmToSamples_length bytes

/-! ## Capture quantization (C10)

`onaudioprocess` converts each floating-point microphone sample with
`int16[i] = inputData[i] * 32768`: no clamping, and the Int16Array store
performs the JavaScript ToInt16 conversion (truncate toward zero, then
wrap modulo 2^16 into [-32768, 32767]). -/

/-- Truncation toward zero of a rational, as JS ToInt16 truncates a Number. -/
def jsTrunc (q : ℚ) : Int :=
  if 0 ≤ q then ⌊q⌋ else ⌈q⌉

/-- Storing a JS Number into an `Int16Array` element (ToInt16): truncate,
wrap modulo 2^16, reinterpret into [-32768, 32767]. -/
def toInt16Store (q : ℚ) : Int :=
  let m := jsTrunc q % 65536
  if m < 32768 then m else m - 65536

/-- The capture stage's sample conversion: `inputData[i] * 32768` stored
into the `Int16Array`, with no clamping. -/
def quantizeSample (x : ℚ) : Int :=
  toInt16Store (x * 32768)

/-- C10: the capture quantization multiplies by 32768 without clamping, so a
full-scale sample of exactly 1.0 wraps around to -32768 instead of
saturating to 32767 (while a just-below-full-scale sample still maps to
32767). -/
theorem quantizeSample_wraps_at_full_scale :
    quantizeSample 1 = -32768
    ∧ quantizeSample 1 ≠ 32767
    ∧ quantizeSample (32767 / 32768) = 32767 := by
  have h1 : quantizeSample 1 = -32768 := by
    norm_num [quantizeSample, toInt16Store, jsTrunc]
  have h2 : quantizeSample (32767 / 32768) = 32767 := by
    norm_num [quantizeSample, toInt16Store, jsTrunc]
  exact ⟨h1, by rw [h1]; decide, h2⟩

/-! ## Live session state (the LiveChat component)

The component's mutable refs and React state, embedded as one record.
An `AudioContext` ref is `absent` (null), `opened`, or `closed` — after
`close()` the ref still holds the (closed) context object unless nulled. -/

/-- Session status, as held in the component's `status` state. -/
inductive Status where
  | idle
  | listening
  | processing
  | speaking
  deriving DecidableEq

/-- Speaker role of a completed transcription entry. -/
inductive Role where
  | user
  | model
  deriving DecidableEq

/-- One entry of the `conversation` list. -/
structure Transcription where
  role : Role
  text : String
  deriving DecidableEq

/-- An audio-context ref: null, holding an open context, or holding a
closed context (the ref is not nulled by `stopConversation`). -/
inductive CtxRef where
  | absent
  | opened
  | closed
  deriving DecidableEq

/-- The LiveChat component state: React state plus the mutable refs. -/
structure LiveState where
  status : Status
  conversation : List Transcription
  currentInput : String
  currentOutput : String
  errorMsg : Option String
  sessionPresent : Bool
  streamPresent : Bool
  processorPresent : Bool
  sourceNodePresent : Bool
  inputCtx : CtxRef
  outputCtx : CtxRef
  nextStartTime : ℚ
  audioSources : List Nat
  deriving DecidableEq

/-- The state of the component before any conversation was started. -/
def initState : LiveState :=
  { status := .idle
    conversation := []
    currentInput := ""
    currentOutput := ""
    errorMsg := none
    sessionPresent := false
    streamPresent := false
    processorPresent := false
    sourceNodePresent := false
    inputCtx := .absent
    outputCtx := .absent
    nextStartTime := 0
    audioSources := [] }

/-- Closing an audio context through its ref: a live context becomes
closed; a null ref stays null.  The ref itself is never cleared. -/
def closeCtx : CtxRef → CtxRef
  | .absent => .absent
  | _ => .closed

/-- `stopConversation`: sets status idle, closes and nulls the session,
stops mic tracks and nulls the stream, disconnects and nulls the script
processor and source node, closes (without nulling) both audio contexts,
stops and clears all scheduled sources, and resets the playback clock. -/
def stopConversation (st : LiveState) : LiveState :=
  { st with
    status := .idle
    sessionPresent := false
    streamPresent := false
    processorPresent := false
    sourceNodePresent := false
    inputCtx := closeCtx st.inputCtx
    outputCtx := closeCtx st.outputCtx
    audioSources := []
    nextStartTime := 0 }

/-! ## Playback scheduling (audio branch of `onmessage`) -/

/-- The start time the audio branch computes:
`Math.max(nextStartTimeRef.current, outputAudioContext.currentTime)`. -/
def schedStart (clock now : ℚ) : ℚ := max clock now

/-- The part of the audio branch that runs after `await decodeAudioData`:
creates a buffer source on the output-context ref (without re-checking it),
starts it at `schedStart`, advances the clock by the segment duration and
adds the source to the active set.  `now` is the context's `currentTime`
read at resume, `dur` the decoded segment's duration. -/
def audioResume (st : LiveState) (now dur : ℚ) (srcId : Nat) : LiveState :=
  { st with
    nextStartTime := schedStart st.nextStartTime now + dur
    audioSources := st.audioSources ++ [srcId] }

/-- The whole audio branch, decode resolving immediately: the guard
`base64Audio && outputAudioContextRef.current` passes when audio is present
and the output-context ref is not null; `setStatus('speaking')` runs before
the await, then the segment is scheduled. -/
def onAudio (st : LiveState) (hasAudio : Bool) (now dur : ℚ) (srcId : Nat) : LiveState :=
  if hasAudio ∧ st.outputCtx ≠ .absent then
    audioResume { st with status := .speaking } now dur srcId
  else st

/-- The `interrupted` branch: calls `stop()` on every source in the active
set (returned as the first component), clears the set, resets the playback
clock to 0 and sets status back to listening. -/
def onInterrupted (st : LiveState) : List Nat × LiveState :=
  (st.audioSources,
    { st with audioSources := [], nextStartTime := 0, status := .listening })

/-- The `inputTranscription` branch: append the delta to the input buffer. -/
def onInputDelta (st : LiveState) (t : String) : LiveState :=
  { st with currentInput := st.currentInput ++ t }

/-- The `outputTranscription` branch: append the delta to the output buffer. -/
def onOutputDelta (st : LiveState) (t : String) : LiveState :=
  { st with currentOutput := st.currentOutput ++ t }

/-- The `turnComplete` branch: append one user turn holding the input
buffer and one model turn holding the output buffer, then clear both. -/
def onTurnComplete (st : LiveState) : LiveState :=
  { st with
    conversation :=
      st.conversation ++ [⟨.user, st.currentInput⟩, ⟨.model, st.currentOutput⟩]
    currentInput := ""
    currentOutput := "" }

/-- One inbound `LiveServerMessage`, reduced to the fields `onmessage`
reads. -/
structure ServerMessage where
  hasAudio : Bool
  inputDelta : Option String
  outputDelta : Option String
  interrupted : Bool
  turnComplete : Bool

/-- `onmessage`, run to completion on one message (decode resolving
immediately), processing the branches in source order: audio, input
transcription, output transcription, interrupted, turn complete. -/
def handleMessage (st : LiveState) (msg : ServerMessage) (now dur : ℚ)
    (srcId : Nat) : LiveState :=
  let st1 := onAudio st msg.hasAudio now dur srcId
  let st2 := match msg.inputDelta with
    | some t => onInputDelta st1 t
    | none => st1
  let st3 := match msg.outputDelta with
    | some t => onOutputDelta st2 t
    | none => st2
  let st4 := if msg.interrupted then (onInterrupted st3).2 else st3
  if msg.turnComplete then onTurnComplete st4 else st4

/-- A message carrying only an input-transcription delta. -/
def inputDeltaMsg (t : String) : ServerMessage :=
  { hasAudio := false, inputDelta := some t, outputDelta := none
    interrupted := false, turnComplete := false }

/-- A message carrying only the turn-complete flag. -/
def turnCompleteMsg : ServerMessage :=
  { hasAudio := false, inputDelta := none, outputDelta := none
    interrupted := false, turnComplete := true }

/-- Iterated scheduling: the clock evolution over successive audio
branches, each observation being (currentTime, duration); yields the
computed (start, end) pair of every segment in order. -/
def runSchedule (clock : ℚ) : List (ℚ × ℚ) → List (ℚ × ℚ)
  | [] => []
  | (now, dur) :: rest =>
      (schedStart clock now, schedStart clock now + dur) ::
        runSchedule (schedStart clock now + dur) rest

/-- C5: `stopConversation` is idempotent and callable from any state, and
after each call the status is idle, the session, stream, processor and
source-node refs are nulled, neither audio context is left open, the
playback clock is 0 and the active playback set is empty. -/
theorem stopConversation_idempotent_and_idle (st : LiveState) :
    stopConversation (stopConversation st) = stopConversation st
    ∧ (stopConversation st).status = .idle
    ∧ (stopConversation st).sessionPresent = false
    ∧ (stopConversation st).streamPresent = false
    ∧ (stopConversation st).processorPresent = false
    ∧ (stopConversation st).sourceNodePresent = false
    ∧ (stopConversation st).inputCtx ≠ .opened
    ∧ (stopConversation st).outputCtx ≠ .opened
    ∧ (stopConversation st).nextStartTime = 0
    ∧ (stopConversation st).audioSources = [] := by
  have hin : closeCtx (closeCtx st.inputCtx) = closeCtx st.inputCtx := by
    cases st.inputCtx <;> rfl
  have hout : closeCtx (closeCtx st.outputCtx) = closeCtx st.outputCtx := by
    cases st.outputCtx <;> rfl
  have hne : ∀ c : CtxRef, closeCtx c ≠ .opened := by
    intro c; cases c <;> simp [closeCtx]
  refine ⟨?_, rfl, rfl, rfl, rfl, rfl, ?_, ?_, rfl, rfl⟩
  · simp [stopConversation, hin, hout]
  · exact hne st.inputCtx
  · exact hne st.outputCtx

/-- C2: each audio branch schedules at `max(playbackClock, currentTime)`
and advances the clock to that start plus the segment duration; hence for
any run of segments in which each scheduling call happens no later than the
previous segment's computed end (calls faster than playback), segment k+1
starts exactly at segment k's computed end. -/
theorem schedule_gapless (st : LiveState) (now dur : ℚ) (srcId : Nat) :
    (audioResume st now dur srcId).nextStartTime
        = max st.nextStartTime now + dur
    ∧ ∀ clock : ℚ, ∀ segs : List (ℚ × ℚ), ∀ k : Nat,
        k + 1 < segs.length →
        (segs.getD (k + 1) (0, 0)).1 ≤ ((runSchedule clock segs).getD k (0, 0)).2 →
        ((runSchedule clock segs).getD (k + 1) (0, 0)).1
          = ((runSchedule clock segs).getD k (0, 0)).2 := by
  refine ⟨rfl, ?_⟩
  intro clock segs
  induction segs generalizing clock with
  | nil => intro k hk; simp at hk
  | cons s rest ih =>
    obtain ⟨n, d⟩ := s
    intro k hk hfast
    cases k with
    | zero =>
      cases rest with
      | nil => simp at hk
      | cons s2 rest2 =>
        obtain ⟨n2, d2⟩ := s2
        simp only [runSchedule, List.getD_cons_succ, List.getD_cons_zero] at hfast ⊢
        simp only [schedStart] at hfast ⊢
        exact max_eq_left hfast
    | succ k =>
      have hk2 : k + 1 < rest.length := by simpa using hk
      simp only [runSchedule, List.getD_cons_succ] at hfast ⊢
      exact ih _ k hk2 hfast

/-- Concrete gapless instance: two segments, the second call arriving while
the first is still playing, starts exactly at the first one's end. -/
theorem schedule_gapless_witness :
    (0 + 1 < ([((0 : ℚ), (1 : ℚ)), ((1 : ℚ), (2 : ℚ))]).length)
    ∧ (([((0 : ℚ), (1 : ℚ)), ((1 : ℚ), (2 : ℚ))].getD 1 (0, 0)).1
        ≤ ((runSchedule 0 [((0 : ℚ), (1 : ℚ)), ((1 : ℚ), (2 : ℚ))]).getD 0 (0, 0)).2)
    ∧ ((runSchedule 0 [((0 : ℚ), (1 : ℚ)), ((1 : ℚ), (2 : ℚ))]).getD 1 (0, 0)).1
        = ((runSchedule 0 [((0 : ℚ), (1 : ℚ)), ((1 : ℚ), (2 : ℚ))]).getD 0 (0, 0)).2 :=
  ⟨by norm_num,
   by norm_num [runSchedule, schedStart],
   (schedule_gapless initState 0 0 0).2 0
     [((0 : ℚ), (1 : ℚ)), ((1 : ℚ), (2 : ℚ))] 0 (by norm_num)
     (by norm_num [runSchedule, schedStart])⟩

/-- C3: the interrupted branch stops exactly the sources of the active
playback set, clears the set, and resets the playback clock to 0; any
schedule call after the interrupt computes a start time equal to the
current real time (hence at least it, for non-negative context time),
independent of whatever the clock was before the interrupt. -/
theorem interrupt_resets_playback (st : LiveState) :
    (onInterrupted st).1 = st.audioSources
    ∧ (onInterrupted st).2.audioSources = []
    ∧ (onInterrupted st).2.nextStartTime = 0
    ∧ ∀ now : ℚ, 0 ≤ now →
        schedStart (onInterrupted st).2.nextStartTime now = now
        ∧ now ≤ schedStart (onInterrupted st).2.nextStartTime now
        ∧ ∀ st' : LiveState,
            schedStart (onInterrupted st).2.nextStartTime now
              = schedStart (onInterrupted st').2.nextStartTime now := by
  refine ⟨rfl, rfl, rfl, fun now h => ⟨?_, ?_, fun st' => rfl⟩⟩
  · simp [onInterrupted, schedStart, max_eq_right h]
  · simp [onInterrupted, schedStart]

/-- Concrete interrupt instance: context time 5 after an interrupt yields
start time 5. -/
theorem interrupt_resets_playback_witness :
    (0 : ℚ) ≤ 5
    ∧ schedStart (onInterrupted { initState with nextStartTime := 99 }).2.nextStartTime 5
        = 5 :=
  ⟨by norm_num,
   ((interrupt_resets_playback { initState with nextStartTime := 99 }).2.2.2 5
       (by norm_num)).1⟩

/-- The C4 scenario: three input-transcription deltas followed by a
turn-complete message. -/
def deltaScenario (st : LiveState) : LiveState :=
  handleMessage
    (handleMessage
      (handleMessage (handleMessage st (inputDeltaMsg "Hel") 0 0 0)
        (inputDeltaMsg "lo ") 0 0 0)
      (inputDeltaMsg "there") 0 0 0)
    turnCompleteMsg 0 0 0

/-- C4: a turn-complete message appends exactly one user turn holding the
input buffer and one model turn holding the output buffer — even when a
buffer is empty — and clears both buffers; in particular three input
deltas "Hel", "lo ", "there" followed by turn-complete produce exactly one
user turn "Hello there" with the input buffer empty afterwards. -/
theorem turnComplete_appends_turn_pair :
    (∀ st : LiveState, ∀ now dur : ℚ, ∀ srcId : Nat,
        handleMessage st turnCompleteMsg now dur srcId
          = { st with
              conversation := st.conversation
                ++ [⟨.user, st.currentInput⟩, ⟨.model, st.currentOutput⟩]
              currentInput := ""
              currentOutput := "" })
    ∧ ∀ st : LiveState, st.currentInput = "" →
        (deltaScenario st).conversation
            = st.conversation
              ++ [⟨.user, "Hello there"⟩, ⟨.model, st.currentOutput⟩]
        ∧ (deltaScenario st).currentInput = "" := by
  constructor
  · intro st now dur srcId
    simp [handleMessage, turnCompleteMsg, onAudio, onTurnComplete]
  · intro st h
    have hs : ((st.currentInput ++ "Hel") ++ "lo ") ++ "there" = "Hello there" := by
      rw [h]; decide
    constructor
    · simp [deltaScenario, handleMessage, inputDeltaMsg, turnCompleteMsg, onAudio,
        onInputDelta, onTurnComplete, hs]
    · simp [deltaScenario, handleMessage, inputDeltaMsg, turnCompleteMsg, onAudio,
        onInputDelta, onTurnComplete]

/-- Concrete turn-accumulation instance, from the initial state. -/
theorem turnComplete_appends_turn_pair_witness :
    initState.currentInput = ""
    ∧ (deltaScenario initState).conversation
        = initState.conversation
          ++ [⟨.user, "Hello there"⟩, ⟨.model, initState.currentOutput⟩]
    ∧ (deltaScenario initState).currentInput = "" :=
  ⟨rfl,
   (turnComplete_appends_turn_pair.2 initState rfl).1,
   (turnComplete_appends_turn_pair.2 initState rfl).2⟩

/-! ## Teardown races and failure paths (C6, C7)

`stopConversation` closes the audio contexts but does not null their refs,
and the audio branch of `onmessage` re-checks nothing after its await. -/

/-- A state in which a conversation is fully established. -/
def listeningState : LiveState :=
  { initState with
    status := .listening
    sessionPresent := true
    streamPresent := true
    processorPresent := true
    sourceNodePresent := true
    inputCtx := .opened
    outputCtx := .opened }

/-- C6 (refuted by the code): in the interleaving "audio message passes the
pre-await guard → `stopConversation` runs → decode completes", the resume
runs against an output-context ref that still holds the (closed) context —
so the buffer source is created and started on a closed context — and it
mutates the playback clock and the active set of the stopped session, so
the late completion is not discarded. -/
theorem lateDecode_not_discarded :
    (stopConversation { listeningState with status := Status.speaking }).outputCtx
        = CtxRef.closed
    ∧ (stopConversation { listeningState with status := Status.speaking }).outputCtx
        ≠ CtxRef.absent
    ∧ (audioResume (stopConversation { listeningState with status := Status.speaking })
          3 2 7).nextStartTime = 5
    ∧ (audioResume (stopConversation { listeningState with status := Status.speaking })
          3 2 7).audioSources = [7]
    ∧ (audioResume (stopConversation { listeningState with status := Status.speaking })
          3 2 7).nextStartTime
        ≠ (stopConversation { listeningState with status := Status.speaking }).nextStartTime := by
  refine ⟨rfl, by simp [stopConversation, listeningState, initState, closeCtx], ?_, rfl, ?_⟩
  · show schedStart (0 : ℚ) 3 + 2 = 5
    norm_num [schedStart]
  · show schedStart (0 : ℚ) 3 + 2 ≠ 0
    norm_num [schedStart]

/-- The state resets `startConversation` performs before connecting. -/
def startReset (st : LiveState) : LiveState :=
  { st with
    errorMsg := none
    currentInput := ""
    currentOutput := ""
    conversation := []
    status := .listening }

/-- `startConversation` when the connect call throws synchronously (after
the output audio context was already created): the catch block only sets
the error message and the status — it closes nothing. -/
def startConnectThrow (st : LiveState) (msg : String) : LiveState :=
  { startReset st with
    outputCtx := .opened
    errorMsg := some msg
    status := .idle }

/-- `startConversation` when the transport opens but `getUserMedia` is
rejected inside `onopen`: the async callback aborts with nothing catching
the rejection, so no assignment after the await runs and no cleanup code
runs at all. -/
def startMicDenied (st : LiveState) : LiveState :=
  { startReset st with
    outputCtx := .opened
    sessionPresent := true }

/-- The `onerror` callback: sets the error message, then runs
`stopConversation`. -/
def onTransportError (st : LiveState) (msg : String) : LiveState :=
  stopConversation { st with errorMsg := some msg }

/-- C7 (refuted by the code): of the three failure paths, only the
transport-error path performs the `stopConversation` release sequence.
A synchronous connect failure leaves the freshly created output audio
context open, and a microphone denial additionally leaves the session
present and the status `listening`; neither state equals what the stop
sequence would have produced. -/
theorem failure_paths_leak_resources :
    (startMicDenied initState).outputCtx = CtxRef.opened
    ∧ (startMicDenied initState).status = Status.listening
    ∧ (startMicDenied initState).sessionPresent = true
    ∧ (startConnectThrow initState "boom").outputCtx = CtxRef.opened
    ∧ (startConnectThrow initState "boom").status = Status.idle
    ∧ startMicDenied initState ≠ stopConversation (startMicDenied initState)
    ∧ startConnectThrow initState "boom"
        ≠ stopConversation (startConnectThrow initState "boom")
    ∧ onTransportError initState "boom"
        = stopConversation { initState with errorMsg := some "boom" } := by
  refine ⟨rfl, rfl, rfl, rfl, rfl, ?_, ?_, rfl⟩
  · intro h
    have := congrArg LiveState.outputCtx h
    simp [startMicDenied, startReset, stopConversation, closeCtx, initState] at this
  · intro h
    have := congrArg LiveState.outputCtx h
    simp [startConnectThrow, startReset, stopConversation, closeCtx, initState] at this

/-! ## Capture ordering (C8)

The capture graph is only built inside `onopen`, so `onaudioprocess`
cannot fire before the transport confirms it is open; the frame callback
itself sends only when the session ref is present, and holds no queue. -/

/-- Events touching the capture pipeline, in the order they occur. -/
inductive CapEv where
  | connectCalled
  | transportOpened
  | produce (f : Nat)
  | stopCalled
  deriving DecidableEq

/-- Capture-side state: whether the session ref is present, whether the
capture graph (script processor) exists, and the frames handed to the
transport, in order.  There is no field for queued frames: the callback
has nowhere to queue one. -/
structure CapState where
  sessionPresent : Bool
  captureActive : Bool
  sent : List Nat
  deriving DecidableEq

/-- Before `startConversation`. -/
def capInit : CapState :=
  { sessionPresent := false, captureActive := false, sent := [] }

/-- One capture-side step.  `connectCalled` stores the session promise;
`transportOpened` (the `onopen` callback) builds the capture graph;
`produce` can only send when the graph exists — `onaudioprocess` cannot
fire otherwise — and hands the frame over only when the session ref is
present, else the frame is dropped on the floor; `stopCalled` nulls the
session ref and disconnects the graph. -/
def capStep (st : CapState) : CapEv → CapState
  | .connectCalled => { st with sessionPresent := true }
  | .transportOpened => { st with captureActive := true }
  | .produce f =>
      if st.captureActive then
        if st.sessionPresent then { st with sent := st.sent ++ [f] } else st
      else st
  | .stopCalled => { st with sessionPresent := false, captureActive := false }

/-- Run the capture pipeline over an event trace from the initial state. -/
def capRun (evs : List CapEv) : CapState :=
  evs.foldl capStep capInit

theorem capRun_no_open_inv (evs : List CapEv) (st : CapState)
    (ha : st.captureActive = false) (hs : st.sent = [])
    (h : CapEv.transportOpened ∉ evs) :
    (evs.foldl capStep st).captureActive = false
    ∧ (evs.foldl capStep st).sent = [] := by
  induction evs generalizing st with
  | nil => exact ⟨ha, hs⟩
  | cons e rest ih =>
    have he : e ≠ CapEv.transportOpened := fun hcontra => h (by simp [hcontra])
    have hrest : CapEv.transportOpened ∉ rest := fun hcontra => h (by simp [hcontra])
    cases e with
    | connectCalled => exact ih _ ha hs hrest
    | transportOpened => exact absurd rfl he
    | produce f =>
      have : capStep st (.produce f) = st := by simp [capStep, ha]
      rw [List.foldl_cons, this]
      exact ih _ ha hs hrest
    | stopCalled => exact ih _ rfl hs hrest

/-- C8: no outbound frame is handed to the transport before the transport
confirms it is open — on any event trace without the transport-open
signal, the capture graph never exists and nothing is ever sent — and a
frame produced while the session ref is absent leaves the state completely
unchanged: dropped, never queued. -/
theorem capture_only_after_open :
    (∀ evs : List CapEv, CapEv.transportOpened ∉ evs →
        (capRun evs).sent = [] ∧ (capRun evs).captureActive = false)
    ∧ ∀ st : CapState, ∀ f : Nat, st.sessionPresent = false →
        capStep st (.produce f) = st := by
  constructor
  · intro evs h
    have := capRun_no_open_inv evs capInit rfl rfl h
    exact ⟨this.2, this.1⟩
  · intro st f h
    simp [capStep, h]

/-- Concrete capture instance: connect then a produced frame, with no
transport-open signal, sends nothing; a produce with no session ref is the
identity. -/
theorem capture_only_after_open_witness :
    (CapEv.transportOpened ∉ [CapEv.connectCalled, CapEv.produce 5])
    ∧ (capRun [CapEv.connectCalled, CapEv.produce 5]).sent = []
    ∧ capInit.sessionPresent = false
    ∧ capStep capInit (.produce 9) = capInit :=
  ⟨by decide,
   (capture_only_after_open.1 [CapEv.connectCalled, CapEv.produce 5] (by decide)).1,
   rfl,
   capture_only_after_open.2 capInit 9 rfl⟩

end LiveAudio
